import Mathlib

/-!
Verification of the pull-and-stream-progress subsystem of the Ollie
repository (file `src-tauri/src/commands/models.rs`): the cancellation
registry, the newline framing of the NDJSON byte stream, and the
lifecycle notifications emitted by `model_pull` and `model_pull_cancel`.

The Rust code is embedded shallowly:

* The cancellation registry (a `HashMap<String, Arc<AtomicBool>>` behind a
  mutex) becomes an association list from pull identifier to the current
  boolean value of its cancellation flag.  `HashMap::insert` replaces any
  existing entry, `HashMap::remove` deletes it, and `flag.store(true)`
  becomes an in-place update of the stored boolean.
* The concurrently-mutated cancellation flag read by the streaming loop is
  modelled as a schedule `flag : Nat → Bool` giving the value the loop
  observes at its i-th check (the loop checks once before each
  `stream.next()` call).  `model_pull_cancel` setting the flag corresponds
  to the schedule turning true from some index on.
* The HTTP transport is an explicit input: `clientBuild` models the
  fallible `reqwest::Client::builder().build()` call, and `sendResult`
  models the initial `POST /api/pull`, either a connection failure or an
  HTTP status plus the list of streamed chunk results, each chunk being
  either raw bytes or a transport error, exactly the three outcomes of
  `stream.next().await`.
* `serde_json::from_str::<serde_json::Value>` is an external library call;
  it is abstracted as an oracle `p : List Char → Bool` saying whether a
  line parses, and a successfully parsed value is represented by the text
  it was parsed from.
* `String::from_utf8_lossy` is embedded as `utf8DecodeLossy`, a faithful
  UTF-8 decoder with U+FFFD replacement of maximal invalid subparts, and
  `str::trim` as `rustTrim` over the Unicode White_Space property set
  used by Rust's `char::is_whitespace`.
* `app.emit(..)` calls become elements of an event trace, in order.
-/

namespace OlliePull

/-- Outcome type of the Tauri commands, mirroring `struct SimpleResponse`
with fields `success: bool` and `error: Option<String>`. -/
structure SimpleResponse where
  success : Bool
  error : Option String
deriving DecidableEq, Repr

/-- The cancellation registry: contents of the `CancellationMap`
(`HashMap<String, Arc<AtomicBool>>`), as an association list from pull id
to the current value of the associated atomic flag. -/
abbrev Registry := List (String × Bool)

/-- Lookup of a pull id in the registry (`map.get(&pull_id)`). -/
def regLookup (k : String) : Registry → Option Bool
  | [] => none
  | (k2, b) :: t => if k2 = k then some b else regLookup k t

/-- Removal of a pull id from the registry (`map.remove(&pull_id)`). -/
def regErase (k : String) : Registry → Registry
  | [] => []
  | (k2, b) :: t => if k2 = k then regErase k t else (k2, b) :: regErase k t

/-- `map.insert(k, v)`: `HashMap::insert` stores `v` under `k`, silently
replacing any entry already present for `k`. -/
def regInsert (k : String) (v : Bool) (m : Registry) : Registry :=
  (k, v) :: regErase k m

/-- Registration step of `model_pull`: create a fresh flag initialised to
`false` and insert it (`map.insert(pull_id.clone(), cancel_flag.clone())`). -/
def regRegister (k : String) (m : Registry) : Registry :=
  regInsert k false m

/-- `flag.store(true, ..)` for the flag stored under `k`: sets the boolean
of the existing entry, leaving the set of registered ids unchanged. -/
def regSet (k : String) (v : Bool) : Registry → Registry
  | [] => []
  | (k2, b) :: t => if k2 = k then (k2, v) :: t else (k2, b) :: regSet k v t

/-- Embedding of the Tauri command `model_pull_cancel`: look up the pull
id; if present set its flag to true and answer success, otherwise answer
a not-found `SimpleResponse`.  (The Rust function returns
`Result<SimpleResponse, String>` but only ever produces the `Ok` variant;
the `SimpleResponse` is returned directly here.) -/
def model_pull_cancel (pullId : String) (reg : Registry) :
    SimpleResponse × Registry :=
  match regLookup pullId reg with
  | some _ => (⟨true, none⟩, regSet pullId true reg)
  | none => (⟨false, some "Pull ID not found"⟩, reg)

/-! ## Text: Rust whitespace, trim, lossy UTF-8 decoding -/

/-- Rust's `char::is_whitespace`: the Unicode White_Space property. -/
def rustIsWhitespace (c : Char) : Bool :=
  let n := c.toNat
  (0x09 ≤ n && n ≤ 0x0D) || n == 0x20 || n == 0x85 || n == 0xA0 ||
    n == 0x1680 || (0x2000 ≤ n && n ≤ 0x200A) || n == 0x2028 ||
    n == 0x2029 || n == 0x202F || n == 0x205F || n == 0x3000

/-- Rust's `str::trim`: remove leading and trailing whitespace. -/
def rustTrim (l : List Char) : List Char :=
  ((l.dropWhile rustIsWhitespace).reverse.dropWhile rustIsWhitespace).reverse

/-- The replacement character U+FFFD used by lossy decoding. -/
def replChar : Char := Char.ofNat 0xFFFD

/-- State of the incremental UTF-8 decoder while inside a multi-byte
sequence: accumulated code-point bits, number of continuation bytes still
required, and the admissible range (inclusive lower, exclusive upper
bound) for the next byte.  `none` is the initial state. -/
abbrev DecState := Option (Nat × Nat × Nat × Nat)

/-- Decoding step from the initial state.  ASCII bytes decode to
themselves; stray continuation bytes (`0x80..0xBF`), the overlong leads
`0xC0`/`0xC1` and the invalid leads `0xF5..0xFF` each become one U+FFFD;
a valid lead byte opens a multi-byte sequence, recording the restricted
range of its first continuation byte (excluding overlong forms after
`0xE0`/`0xF0`, surrogates after `0xED`, and values beyond U+10FFFF after
`0xF4`), exactly as in the UTF-8 validation used by
`String::from_utf8_lossy`. -/
def decStepInit (b : Nat) : List Char × DecState :=
  if b < 0x80 then ([Char.ofNat b], none)
  else if b < 0xC2 then ([replChar], none)
  else if b < 0xE0 then ([], some (b - 0xC0, 1, 0x80, 0xC0))
  else if b < 0xF0 then
    ([], some (b - 0xE0, 2, if b = 0xE0 then 0xA0 else 0x80,
      if b = 0xED then 0xA0 else 0xC0))
  else if b < 0xF5 then
    ([], some (b - 0xF0, 3, if b = 0xF0 then 0x90 else 0x80,
      if b = 0xF4 then 0x90 else 0xC0))
  else ([replChar], none)

/-- One decoding step.  Inside a sequence, an admissible byte contributes
six bits and either completes the character or stays in the sequence;
an inadmissible byte replaces the invalid prefix read so far with one
U+FFFD (maximal-subpart replacement) and is then reprocessed from the
initial state, matching the resumption behaviour of
`String::from_utf8_lossy`. -/
def decStep : DecState → Nat → List Char × DecState
  | none, b => decStepInit b
  | some (acc, need, lo, hi), b =>
    if lo ≤ b && b < hi then
      if need = 1 then ([Char.ofNat (acc * 64 + (b - 0x80))], none)
      else ([], some (acc * 64 + (b - 0x80), need - 1, 0x80, 0xC0))
    else
      let r := decStepInit b
      (replChar :: r.1, r.2)

/-- Run the decoder over a byte list from a given state; an incomplete
sequence left at the end of the input becomes a single U+FFFD. -/
def decRun : DecState → List Nat → List Char
  | none, [] => []
  | some _, [] => [replChar]
  | s, b :: t =>
    let r := decStep s b
    r.1 ++ decRun r.2 t

/-- Embedding of `String::from_utf8_lossy` applied to one received chunk:
decode the bytes as UTF-8, replacing each maximal invalid subpart with
U+FFFD; an incomplete multi-byte sequence at the end of the chunk becomes
a single U+FFFD.  Note that the Rust code applies this to every chunk in
isolation, so a multi-byte character split across two chunks is decoded
as replacement characters, not as the original character. -/
def utf8DecodeLossy (bs : List Nat) : List Char := decRun none bs

/-- The UTF-8 encoding of one character. -/
def utf8EncodeChar (c : Char) : List Nat :=
  let n := c.toNat
  if n < 0x80 then [n]
  else if n < 0x800 then [0xC0 + n / 64, 0x80 + n % 64]
  else if n < 0x10000 then
    [0xE0 + n / 4096, 0x80 + n / 64 % 64, 0x80 + n % 64]
  else [0xF0 + n / 262144, 0x80 + n / 4096 % 64, 0x80 + n / 64 % 64,
    0x80 + n % 64]

/-- The UTF-8 encoding of a character sequence. -/
def utf8Encode : List Char → List Nat
  | [] => []
  | c :: t => utf8EncodeChar c ++ utf8Encode t

/-! ## Lifecycle notifications -/

/-- Payload of a `models:pull-progress` notification: either the value
parsed from the line (represented by the text it was parsed from), or,
on parse failure, the wrapper object with status `parsing_error` carrying
the raw line text. -/
inductive ProgressPayload where
  | value (v : List Char)
  | parsingError (raw : List Char)
deriving DecidableEq, Repr

/-- One `app.emit(..)` call made by `model_pull`, in the order the Rust
code performs them. -/
inductive Event where
  | pullStart (pullId name : String)
  | pullProgress (pullId : String) (progress : ProgressPayload)
  | pullCancelled (pullId : String)
  | pullError (pullId : String) (error : String)
  | pullComplete (pullId : String)
deriving DecidableEq, Repr

/-- Is this a `models:pull-progress` notification? -/
def isProgressEvent : Event → Bool
  | .pullProgress _ _ => true
  | _ => false

/-- Is this a `models:pull-error` notification? -/
def isErrorEvent : Event → Bool
  | .pullError _ _ => true
  | _ => false

/-- Is this a `models:pull-cancelled` notification? -/
def isCancelledEvent : Event → Bool
  | .pullCancelled _ => true
  | _ => false

/-- The progress notification emitted for one extracted (already trimmed,
non-empty) line, given the parse oracle `p` modelling
`serde_json::from_str::<serde_json::Value>`: the parsed value on success,
the `parsing_error` wrapper on failure (models.rs lines 198-208). -/
def progressEvent (p : List Char → Bool) (pid : String) (line : List Char) :
    Event :=
  if p line then Event.pullProgress pid (ProgressPayload.value line)
  else Event.pullProgress pid (ProgressPayload.parsingError line)

/-- The optional notification produced by one complete (newline
terminated) line before trimming: trimmed empty lines produce nothing
(`if line.is_empty() { continue; }`), others one progress event. -/
def lineEvent (p : List Char → Bool) (pid : String) (l : List Char) :
    Option Event :=
  if rustTrim l = [] then none else some (progressEvent p pid (rustTrim l))

/-! ## Line framer -/

/-- Mirrors `buffer.find('\n')` followed by the split into
`buffer[..pos]` and `buffer[pos + 1..]`: the text before the first
newline and the text after it, or `none` when the buffer holds no
newline. -/
def breakAtNewline : List Char → Option (List Char × List Char)
  | [] => none
  | c :: rest =>
    if c = '\n' then some ([], rest)
    else
      match breakAtNewline rest with
      | none => none
      | some (pre, post) => some (c :: pre, post)

/-- The inner drain loop of `model_pull` (models.rs lines 192-212) with
explicit fuel: repeatedly split the buffer at its first newline, trim the
extracted line, skip it if empty and otherwise emit one progress
notification, until no newline remains; returns the emitted events in
order and the remaining buffer.  Each split strictly shrinks the buffer,
so fuel `buf.length` (as used by `drainLines`) always suffices. -/
def drainLinesF (p : List Char → Bool) (pid : String) :
    Nat → List Char → List Event × List Char
  | 0, buf => ([], buf)
  | fuel + 1, buf =>
    match breakAtNewline buf with
    | none => ([], buf)
    | some (pre, post) =>
      let line := rustTrim pre
      let r := drainLinesF p pid fuel post
      if line = [] then r else (progressEvent p pid line :: r.1, r.2)

/-- The inner drain loop of `model_pull`: extract every complete line
from the buffer, emitting one progress notification per non-empty trimmed
line, and return the leftover text after the last newline. -/
def drainLines (p : List Char → Bool) (pid : String) (buf : List Char) :
    List Event × List Char :=
  drainLinesF p pid buf.length buf

/-! ## Specification-side line splitting

`splitAux` is the straightforward one-pass splitting of a text into its
newline-terminated parts plus the unterminated remainder; the framing
lemmas relate the incremental drain loop above to it. -/

/-- Split a text at every newline: returns the list of complete
(newline-terminated) parts and the remainder after the last newline,
while `acc` accumulates the current part. -/
def splitAux : List Char → List Char → List (List Char) × List Char
  | [], acc => ([], acc)
  | c :: rest, acc =>
    if c = '\n' then
      let r := splitAux rest []
      (acc :: r.1, r.2)
    else splitAux rest (acc ++ [c])

/-- The newline-terminated parts of a text and its unterminated
remainder. -/
def splitCL (text : List Char) : List (List Char) × List Char :=
  splitAux text []

/-- Concatenation of a list of texts. -/
def concatAll : List (List Char) → List Char
  | [] => []
  | t :: r => t ++ concatAll r

/-! ## The streaming loop and the orchestrator -/

/-- The streaming loop of `model_pull` (models.rs lines 180-224).
Arguments: the remaining chunk results the transport will deliver, the
index `i` of the next cancellation-flag read (the flag is checked once
before every `stream.next()` call), and the current line buffer.  Returns
the loop result (`Ok(())` on stream end, `Err` on cancellation or
transport error), the progress events emitted, and the final buffer. -/
def streamLoop (p : List Char → Bool) (pid : String) (flag : Nat → Bool) :
    List (Except String (List Nat)) → Nat → List Char →
      Except String Unit × List Event × List Char
  | chunks, i, buf =>
    if flag i then (Except.error "Cancelled by user", [], buf)
    else
      match chunks with
      | [] => (Except.ok (), [], buf)
      | Except.error e :: _ => (Except.error e, [], buf)
      | Except.ok bytes :: rest =>
        let fed := buf ++ utf8DecodeLossy bytes
        let d := drainLines p pid fed
        let r := streamLoop p pid flag rest (i + 1) d.2
        (r.1, d.1 ++ r.2.1, r.2.2)

/-- `reqwest::StatusCode::is_success`: 200 through 299. -/
def statusIsSuccess (s : Nat) : Bool := 200 ≤ s && s ≤ 299

/-- The error message built from a non-success HTTP status
(`format!("HTTP error: {}", response.status())`, with the status shown by
its numeric code). -/
def httpErrorMsg (s : Nat) : String := "HTTP error: " ++ toString s

deriving instance DecidableEq for Except

/-- Everything observable about one `model_pull` invocation: the value
returned to the caller (`Err` of the Rust `Result`, or `Ok` carrying a
`SimpleResponse`), the emitted notifications in order, and the final
contents of the cancellation registry. -/
structure PullOutcome where
  result : Except String SimpleResponse
  events : List Event
  registry : Registry
deriving DecidableEq, Repr

/-- Embedding of the Tauri command `model_pull` (models.rs lines
137-254).  `name` is the model name, `pid` the resolved pull identifier
(caller supplied or freshly generated), `clientBuild` the outcome of
building the HTTP client, `sendResult` the outcome of the initial
streaming request (connection error, or HTTP status plus delivered chunk
results), `flag` the cancellation values observed by the loop, and `reg0`
the registry contents at entry.  Mirrors the source exactly: register the
fresh flag; build the client (`?` propagates a failure as `Err` with no
notification and no cleanup); emit `pull-start`; send (`?` likewise
propagates failure); on a non-success status emit `pull-error` and return
failure without cleanup; otherwise run the streaming loop, remove the
registry entry, then emit `pull-cancelled` or `pull-error` and return
failure if the loop broke with an error, else emit a trailing progress
notification for the leftover buffer only if it is non-empty after
trimming and parses as JSON, emit `pull-complete` and return success. -/
def model_pull (p : List Char → Bool) (name pid : String)
    (clientBuild : Except String Unit)
    (sendResult : Except String (Nat × List (Except String (List Nat))))
    (flag : Nat → Bool) (reg0 : Registry) : PullOutcome :=
  let reg1 := regRegister pid reg0
  match clientBuild with
  | Except.error e => ⟨Except.error e, [], reg1⟩
  | Except.ok () =>
    let started := [Event.pullStart pid name]
    match sendResult with
    | Except.error e => ⟨Except.error e, started, reg1⟩
    | Except.ok (status, chunks) =>
      if statusIsSuccess status then
        let r := streamLoop p pid flag chunks 0 []
        let reg2 := regErase pid reg1
        match r.1 with
        | Except.error e =>
          let terminal :=
            if e = "Cancelled by user" then Event.pullCancelled pid
            else Event.pullError pid e
          ⟨Except.ok ⟨false, some e⟩, started ++ r.2.1 ++ [terminal], reg2⟩
        | Except.ok () =>
          let rem := rustTrim r.2.2
          let flush :=
            if rem = [] then []
            else if p rem then [Event.pullProgress pid (ProgressPayload.value rem)]
            else []
          ⟨Except.ok ⟨true, none⟩,
            started ++ r.2.1 ++ flush ++ [Event.pullComplete pid], reg2⟩
      else
        ⟨Except.ok ⟨false, some (httpErrorMsg status)⟩,
          started ++ [Event.pullError pid (httpErrorMsg status)], reg1⟩

/-- Events drained from the complete lines of a text. -/
def lineEventsOf (p : List Char → Bool) (pid : String) (text : List Char) :
    List Event :=
  (splitCL text).1.filterMap (lineEvent p pid)

/-- The non-empty trimmed newline-terminated segments of a text: the
specification's notion of the progress records a text should produce. -/
def segmentsOf (text : List Char) : List (List Char) :=
  ((splitCL text).1.map rustTrim).filter (fun l => !l.isEmpty)

/-! ## Lemmas: UTF-8 round trip

A byte chunk that is the UTF-8 encoding of a text decodes back to exactly
that text; this is the "no chunk boundary splits a multi-byte character"
hypothesis under which the framing claims hold. -/


theorem char_valid_nat (c : Char) :
    c.toNat < 0xd800 ∨ (0xdfff < c.toNat ∧ c.toNat < 0x110000) := by
  rcases c.valid with h | ⟨h1, h2⟩
  · left; exact h
  · right; exact ⟨h1, h2⟩

theorem decRun_cons (s : DecState) (b : Nat) (t : List Nat) :
    decRun s (b :: t) = (decStep s b).1 ++ decRun (decStep s b).2 t := by
  cases s <;> rfl

theorem decStep_none (b : Nat) : decStep none b = decStepInit b := rfl

theorem decStepInit_ascii (b : Nat) (h : b < 0x80) :
    decStepInit b = ([Char.ofNat b], none) := by
  simp only [decStepInit]
  rw [if_pos h]

theorem decStepInit_lead2 (b : Nat) (hlo : 0xC2 ≤ b) (hhi : b < 0xE0) :
    decStepInit b = ([], some (b - 0xC0, 1, 0x80, 0xC0)) := by
  simp only [decStepInit]
  rw [if_neg (by omega), if_neg (by omega), if_pos hhi]

theorem decStepInit_lead3 (b : Nat) (hlo : 0xE0 ≤ b) (hhi : b < 0xF0) :
    decStepInit b = ([], some (b - 0xE0, 2, if b = 0xE0 then 0xA0 else 0x80,
      if b = 0xED then 0xA0 else 0xC0)) := by
  simp only [decStepInit]
  rw [if_neg (by omega), if_neg (by omega), if_neg (by omega), if_pos hhi]

theorem decStepInit_lead4 (b : Nat) (hlo : 0xF0 ≤ b) (hhi : b < 0xF5) :
    decStepInit b = ([], some (b - 0xF0, 3, if b = 0xF0 then 0x90 else 0x80,
      if b = 0xF4 then 0x90 else 0xC0)) := by
  simp only [decStepInit]
  rw [if_neg (by omega), if_neg (by omega), if_neg (by omega),
    if_neg (by omega), if_pos hhi]

theorem decStep_more (acc need lo hi b : Nat) (h1 : lo ≤ b) (h2 : b < hi)
    (h3 : need ≠ 1) :
    decStep (some (acc, need, lo, hi)) b =
      ([], some (acc * 64 + (b - 0x80), need - 1, 0x80, 0xC0)) := by
  simp only [decStep]
  rw [if_pos (by simp only [Bool.and_eq_true, decide_eq_true_eq]; exact ⟨h1, h2⟩),
    if_neg h3]

theorem decStep_last (acc lo hi b : Nat) (h1 : lo ≤ b) (h2 : b < hi) :
    decStep (some (acc, 1, lo, hi)) b =
      ([Char.ofNat (acc * 64 + (b - 0x80))], none) := by
  simp only [decStep]
  rw [if_pos (by simp only [Bool.and_eq_true, decide_eq_true_eq]; exact ⟨h1, h2⟩)]
  simp

theorem decRun_encodeChar (c : Char) (rest : List Nat) :
    decRun none (utf8EncodeChar c ++ rest) = c :: decRun none rest := by
  have hv := char_valid_nat c
  rcases Nat.lt_or_ge c.toNat 0x80 with h1 | h1
  · have he : utf8EncodeChar c = [c.toNat] := by
      simp only [utf8EncodeChar, if_pos h1]
    rw [he, List.cons_append, List.nil_append, decRun_cons, decStep_none,
      decStepInit_ascii _ h1, Char.ofNat_toNat]
    simp
  · rcases Nat.lt_or_ge c.toNat 0x800 with h2 | h2
    · have he : utf8EncodeChar c = [0xC0 + c.toNat / 64, 0x80 + c.toNat % 64] := by
        simp only [utf8EncodeChar]
        rw [if_neg (by omega), if_pos h2]
      rw [he]
      simp only [List.cons_append, List.nil_append]
      rw [decRun_cons, decStep_none, decStepInit_lead2 _ (by omega) (by omega)]
      simp only [List.nil_append]
      rw [decRun_cons, decStep_last _ _ _ _ (by omega) (by omega)]
      have harith : (0xC0 + c.toNat / 64 - 0xC0) * 64 + (0x80 + c.toNat % 64 - 0x80)
          = c.toNat := by omega
      rw [harith, Char.ofNat_toNat]
      simp
    · rcases Nat.lt_or_ge c.toNat 0x10000 with h3 | h3
      · have he : utf8EncodeChar c = [0xE0 + c.toNat / 4096,
            0x80 + c.toNat / 64 % 64, 0x80 + c.toNat % 64] := by
          simp only [utf8EncodeChar]
          rw [if_neg (by omega), if_neg (by omega), if_pos h3]
        rw [he]
        simp only [List.cons_append, List.nil_append]
        rw [decRun_cons, decStep_none, decStepInit_lead3 _ (by omega) (by omega)]
        simp only [List.nil_append]
        have hcA : (if 0xE0 + c.toNat / 4096 = 0xE0 then 0xA0 else 0x80) ≤
            0x80 + c.toNat / 64 % 64 := by
          split_ifs <;> omega
        have hcB : 0x80 + c.toNat / 64 % 64 <
            (if 0xE0 + c.toNat / 4096 = 0xED then 0xA0 else 0xC0) := by
          split_ifs <;> omega
        rw [decRun_cons, decStep_more _ _ _ _ _ hcA hcB (by omega)]
        simp only [List.nil_append]
        rw [decRun_cons, decStep_last _ _ _ _ (by omega) (by omega)]
        have harith : ((0xE0 + c.toNat / 4096 - 0xE0) * 64 +
            (0x80 + c.toNat / 64 % 64 - 0x80)) * 64 +
            (0x80 + c.toNat % 64 - 0x80) = c.toNat := by omega
        rw [harith, Char.ofNat_toNat]
        simp
      · have h4 : c.toNat < 0x110000 := by omega
        have he : utf8EncodeChar c = [0xF0 + c.toNat / 262144,
            0x80 + c.toNat / 4096 % 64, 0x80 + c.toNat / 64 % 64,
            0x80 + c.toNat % 64] := by
          simp only [utf8EncodeChar]
          rw [if_neg (by omega), if_neg (by omega), if_neg (by omega)]
        rw [he]
        simp only [List.cons_append, List.nil_append]
        rw [decRun_cons, decStep_none, decStepInit_lead4 _ (by omega) (by omega)]
        simp only [List.nil_append]
        have hcA : (if 0xF0 + c.toNat / 262144 = 0xF0 then 0x90 else 0x80) ≤
            0x80 + c.toNat / 4096 % 64 := by
          split_ifs <;> omega
        have hcB : 0x80 + c.toNat / 4096 % 64 <
            (if 0xF0 + c.toNat / 262144 = 0xF4 then 0x90 else 0xC0) := by
          split_ifs <;> omega
        rw [decRun_cons, decStep_more _ _ _ _ _ hcA hcB (by omega)]
        simp only [List.nil_append]
        rw [decRun_cons, decStep_more _ _ _ _ _ (by omega : (0x80 : Nat) ≤ 0x80 + c.toNat / 64 % 64) (by omega) (by omega)]
        simp only [List.nil_append]
        rw [decRun_cons, decStep_last _ _ _ _ (by omega) (by omega)]
        have harith : (((0xF0 + c.toNat / 262144 - 0xF0) * 64 +
            (0x80 + c.toNat / 4096 % 64 - 0x80)) * 64 +
            (0x80 + c.toNat / 64 % 64 - 0x80)) * 64 +
            (0x80 + c.toNat % 64 - 0x80) = c.toNat := by omega
        rw [harith, Char.ofNat_toNat]
        simp

theorem decRun_encode (t : List Char) (rest : List Nat) :
    decRun none (utf8Encode t ++ rest) = t ++ decRun none rest := by
  induction t with
  | nil => simp [utf8Encode]
  | cons c t ih =>
    rw [utf8Encode, List.append_assoc, decRun_encodeChar, ih]
    rfl

theorem utf8DecodeLossy_encode (t : List Char) :
    utf8DecodeLossy (utf8Encode t) = t := by
  have h := decRun_encode t []
  simpa [utf8DecodeLossy, decRun] using h

/-! ## Lemmas: registry, framing, streaming loop, orchestrator paths -/

/- Registry lemmas -/

theorem regLookup_regErase_self (k : String) (m : Registry) :
    regLookup k (regErase k m) = none := by
  induction m with
  | nil => rfl
  | cons p t ih =>
    obtain ⟨k2, b⟩ := p
    by_cases h : k2 = k
    · simp [regErase, h, ih]
    · simp [regErase, regLookup, h, ih]

theorem regLookup_regErase_ne (q k : String) (m : Registry) (h : q ≠ k) :
    regLookup q (regErase k m) = regLookup q m := by
  induction m with
  | nil => rfl
  | cons p t ih =>
    obtain ⟨k2, b⟩ := p
    by_cases h2 : k2 = k
    · subst h2
      simp [regErase, regLookup, Ne.symm h, ih]
    · by_cases h3 : k2 = q
      · simp [regErase, regLookup, h2, h3, h]
      · simp [regErase, regLookup, h2, h3, ih]

theorem regLookup_regInsert_self (k : String) (v : Bool) (m : Registry) :
    regLookup k (regInsert k v m) = some v := by
  simp [regInsert, regLookup]

theorem regLookup_regInsert_ne (q k : String) (v : Bool) (m : Registry)
    (h : q ≠ k) : regLookup q (regInsert k v m) = regLookup q m := by
  simp [regInsert, regLookup, Ne.symm h, regLookup_regErase_ne q k m h]

theorem regLookup_regSet_self (k : String) (v b : Bool) (m : Registry)
    (h : regLookup k m = some b) : regLookup k (regSet k v m) = some v := by
  induction m with
  | nil => simp [regLookup] at h
  | cons p t ih =>
    obtain ⟨k2, b2⟩ := p
    by_cases h2 : k2 = k
    · simp [regSet, regLookup, h2]
    · simp [regLookup, h2] at h
      simp [regSet, regLookup, h2, ih h]

theorem regLookup_regSet_ne (q k : String) (v : Bool) (m : Registry)
    (h : q ≠ k) : regLookup q (regSet k v m) = regLookup q m := by
  induction m with
  | nil => rfl
  | cons p t ih =>
    obtain ⟨k2, b2⟩ := p
    by_cases h2 : k2 = k
    · subst h2
      simp [regSet, regLookup, Ne.symm h]
    · simp [regSet, regLookup, h2, ih]

theorem regSet_regSet (k : String) (v : Bool) (m : Registry) :
    regSet k v (regSet k v m) = regSet k v m := by
  induction m with
  | nil => rfl
  | cons p t ih =>
    obtain ⟨k2, b2⟩ := p
    by_cases h2 : k2 = k
    · simp [regSet, h2]
    · simp [regSet, h2, ih]

/- Framing lemmas: breakAtNewline and splitAux -/

theorem breakAtNewline_none (buf : List Char) (h : breakAtNewline buf = none) :
    ∀ acc, splitAux buf acc = ([], acc ++ buf) := by
  induction buf with
  | nil => intro acc; simp [splitAux]
  | cons c rest ih =>
    intro acc
    by_cases hc : c = '\n'
    · simp [breakAtNewline, hc] at h
    · simp only [breakAtNewline, if_neg hc] at h
      rcases hb : breakAtNewline rest with _ | pq
      · simp only [splitAux, if_neg hc]
        rw [ih hb]
        simp
      · rw [hb] at h
        obtain ⟨pre, post⟩ := pq
        simp at h

theorem breakAtNewline_some (buf : List Char) :
    ∀ pre post, breakAtNewline buf = some (pre, post) →
      ∀ acc, splitAux buf acc =
        ((acc ++ pre) :: (splitCL post).1, (splitCL post).2) := by
  induction buf with
  | nil => intro pre post h; simp [breakAtNewline] at h
  | cons c rest ih =>
    intro pre post h acc
    by_cases hc : c = '\n'
    · simp only [breakAtNewline, if_pos hc, Option.some.injEq, Prod.mk.injEq] at h
      obtain ⟨h1, h2⟩ := h
      subst h1
      subst h2
      simp [splitAux, if_pos hc, splitCL]
    · simp only [breakAtNewline, if_neg hc] at h
      rcases hb : breakAtNewline rest with _ | ⟨pre2, post2⟩
      · rw [hb] at h
        simp at h
      · rw [hb] at h
        simp only [Option.some.injEq, Prod.mk.injEq] at h
        obtain ⟨h1, h2⟩ := h
        subst h1
        subst h2
        rw [splitAux, if_neg hc, ih pre2 post2 hb (acc ++ [c])]
        simp

theorem breakAtNewline_length (buf : List Char) :
    ∀ pre post, breakAtNewline buf = some (pre, post) →
      post.length < buf.length := by
  induction buf with
  | nil => intro pre post h; simp [breakAtNewline] at h
  | cons c rest ih =>
    intro pre post h
    by_cases hc : c = '\n'
    · simp only [breakAtNewline, if_pos hc, Option.some.injEq, Prod.mk.injEq] at h
      obtain ⟨h1, h2⟩ := h
      subst h2
      simp
    · simp only [breakAtNewline, if_neg hc] at h
      rcases hb : breakAtNewline rest with _ | ⟨pre2, post2⟩
      · rw [hb] at h
        simp at h
      · rw [hb] at h
        simp only [Option.some.injEq, Prod.mk.injEq] at h
        obtain ⟨h1, h2⟩ := h
        subst h2
        have := ih pre2 post2 hb
        simp
        omega

theorem drainLinesF_eq (p : List Char → Bool) (pid : String) :
    ∀ fuel buf, buf.length ≤ fuel →
      drainLinesF p pid fuel buf =
        ((splitCL buf).1.filterMap (lineEvent p pid), (splitCL buf).2) := by
  intro fuel
  induction fuel with
  | zero =>
    intro buf hlen
    have : buf = [] := List.length_eq_zero.mp (Nat.le_zero.mp hlen)
    subst this
    simp [drainLinesF, splitCL, splitAux]
  | succ fuel ih =>
    intro buf hlen
    rcases hb : breakAtNewline buf with _ | ⟨pre, post⟩
    · rw [drainLinesF, hb]
      rw [show splitCL buf = ([], buf) from by
        have := breakAtNewline_none buf hb []
        simpa [splitCL] using this]
      simp
    · have hlt := breakAtNewline_length buf pre post hb
      rw [drainLinesF, hb]
      dsimp only
      rw [ih post (by omega)]
      rw [show splitCL buf = (pre :: (splitCL post).1, (splitCL post).2) from by
        have := breakAtNewline_some buf pre post hb []
        simpa [splitCL] using this]
      simp only [List.filterMap_cons, lineEvent]
      by_cases hl : rustTrim pre = []
      · simp [hl]
      · simp [hl]

theorem drainLines_eq (p : List Char → Bool) (pid : String) (buf : List Char) :
    drainLines p pid buf =
      ((splitCL buf).1.filterMap (lineEvent p pid), (splitCL buf).2) :=
  drainLinesF_eq p pid buf.length buf le_rfl

theorem splitAux_no_newline (buf : List Char) :
    ∀ acc, '\n' ∉ acc → '\n' ∉ (splitAux buf acc).2 := by
  induction buf with
  | nil => intro acc h; simpa [splitAux] using h
  | cons c rest ih =>
    intro acc h
    by_cases hc : c = '\n'
    · rw [splitAux, if_pos hc]
      exact ih [] (by simp)
    · rw [splitAux, if_neg hc]
      refine ih (acc ++ [c]) ?_
      simp only [List.mem_append, List.mem_singleton]
      rintro (h2 | h2)
      · exact h h2
      · exact hc h2.symm

theorem splitAux_shift (cur : List Char) :
    ∀ b acc, '\n' ∉ cur →
      splitAux (cur ++ b) acc = splitAux b (acc ++ cur) := by
  induction cur with
  | nil => intro b acc h; simp
  | cons c cur2 ih =>
    intro b acc h
    have hc : c ≠ '\n' := by
      intro hcc
      exact h (by simp [hcc])
    rw [List.cons_append, splitAux, if_neg hc, ih b (acc ++ [c]) (by
      intro hm
      exact h (List.mem_cons_of_mem c hm))]
    simp

theorem splitAux_append (a : List Char) :
    ∀ b acc, '\n' ∉ acc →
      splitAux (a ++ b) acc =
        ((splitAux a acc).1 ++ (splitAux ((splitAux a acc).2 ++ b) []).1,
          (splitAux ((splitAux a acc).2 ++ b) []).2) := by
  induction a with
  | nil =>
    intro b acc h
    rw [show splitAux ([] : List Char) acc = ([], acc) from rfl]
    simp only [List.nil_append]
    rw [splitAux_shift acc b [] h]
    simp
  | cons c a2 ih =>
    intro b acc h
    by_cases hc : c = '\n'
    · simp only [List.cons_append, splitAux, if_pos hc, List.append_eq]
      rw [ih b [] (by simp)]
    · simp only [List.cons_append, splitAux, if_neg hc, List.append_eq]
      rw [ih b (acc ++ [c]) (by
        simp only [List.mem_append, List.mem_singleton]
        rintro (h2 | h2)
        · exact h h2
        · exact hc h2.symm)]

theorem splitCL_no_newline (buf : List Char) (h : '\n' ∉ buf) :
    splitCL buf = ([], buf) := by
  have h2 := splitAux_shift buf [] [] h
  simpa [splitCL] using h2

theorem splitCL_rem_no_newline (buf : List Char) :
    '\n' ∉ (splitCL buf).2 :=
  splitAux_no_newline buf [] (by simp)

theorem streamLoop_cancelled (p : List Char → Bool) (pid : String)
    (flag : Nat → Bool) (chunks : List (Except String (List Nat))) (i : Nat)
    (buf : List Char) (hf : flag i = true) :
    streamLoop p pid flag chunks i buf =
      (Except.error "Cancelled by user", [], buf) := by
  rw [streamLoop.eq_def]
  dsimp only
  rw [if_pos hf]

theorem streamLoop_nil (p : List Char → Bool) (pid : String)
    (flag : Nat → Bool) (i : Nat) (buf : List Char) (hf : flag i = false) :
    streamLoop p pid flag [] i buf = (Except.ok (), [], buf) := by
  rw [streamLoop.eq_def]
  dsimp only
  rw [if_neg (by simp [hf])]

theorem streamLoop_err (p : List Char → Bool) (pid : String)
    (flag : Nat → Bool) (e : String) (rest : List (Except String (List Nat)))
    (i : Nat) (buf : List Char) (hf : flag i = false) :
    streamLoop p pid flag (Except.error e :: rest) i buf =
      (Except.error e, [], buf) := by
  rw [streamLoop.eq_def]
  dsimp only
  rw [if_neg (by simp [hf])]

theorem streamLoop_ok_cons (p : List Char → Bool) (pid : String)
    (flag : Nat → Bool) (bytes : List Nat)
    (rest : List (Except String (List Nat))) (i : Nat) (buf : List Char)
    (hf : flag i = false) :
    streamLoop p pid flag (Except.ok bytes :: rest) i buf =
      ((streamLoop p pid flag rest (i + 1)
          (drainLines p pid (buf ++ utf8DecodeLossy bytes)).2).1,
        (drainLines p pid (buf ++ utf8DecodeLossy bytes)).1 ++
          (streamLoop p pid flag rest (i + 1)
            (drainLines p pid (buf ++ utf8DecodeLossy bytes)).2).2.1,
        (streamLoop p pid flag rest (i + 1)
          (drainLines p pid (buf ++ utf8DecodeLossy bytes)).2).2.2) := by
  rw [streamLoop.eq_def]
  dsimp only
  rw [if_neg (by simp [hf])]

theorem streamLoop_all_ok (p : List Char → Bool) (pid : String)
    (flag : Nat → Bool) (texts : List (List Char)) :
    ∀ i buf, (∀ j, flag j = false) → '\n' ∉ buf →
      streamLoop p pid flag (texts.map (fun t => Except.ok (utf8Encode t))) i buf =
        (Except.ok (), lineEventsOf p pid (buf ++ concatAll texts),
          (splitCL (buf ++ concatAll texts)).2) := by
  induction texts with
  | nil =>
    intro i buf hf hb
    rw [List.map_nil, streamLoop_nil p pid flag i buf (hf i)]
    rw [show concatAll [] = [] from rfl, List.append_nil,
      splitCL_no_newline buf hb]
    simp [lineEventsOf, splitCL_no_newline buf hb]
  | cons t rest ih =>
    intro i buf hf hb
    rw [List.map_cons, streamLoop_ok_cons p pid flag _ _ i buf (hf i)]
    rw [utf8DecodeLossy_encode, drainLines_eq]
    rw [ih (i + 1) (splitCL (buf ++ t)).2 hf (splitCL_rem_no_newline (buf ++ t))]
    have happ := splitAux_append (buf ++ t) (concatAll rest) [] (by simp)
    rw [show concatAll (t :: rest) = t ++ concatAll rest from rfl,
      ← List.append_assoc]
    dsimp only
    simp only [lineEventsOf, splitCL]
    rw [happ]
    simp [List.filterMap_append]

theorem streamLoop_cancel_at (p : List Char → Bool) (pid : String)
    (flag : Nat → Bool) :
    ∀ (j : Nat) (texts : List (List Char)) (k : Nat) (buf : List Char),
      '\n' ∉ buf → (∀ i, i < j → flag (k + i) = false) →
      flag (k + j) = true → j ≤ texts.length →
      streamLoop p pid flag (texts.map (fun t => Except.ok (utf8Encode t))) k buf =
        (Except.error "Cancelled by user",
          lineEventsOf p pid (buf ++ concatAll (texts.take j)),
          (splitCL (buf ++ concatAll (texts.take j))).2) := by
  intro j
  induction j with
  | zero =>
    intro texts k buf hb hbefore hat hlen
    rw [streamLoop_cancelled p pid flag _ k buf (by simpa using hat)]
    simp [lineEventsOf, concatAll, splitCL_no_newline buf hb]
  | succ j ih =>
    intro texts k buf hb hbefore hat hlen
    have hf0 : flag k = false := by simpa using hbefore 0 (by omega)
    match texts with
    | [] => simp at hlen
    | t :: rest =>
      rw [List.map_cons, streamLoop_ok_cons p pid flag _ _ k buf hf0]
      rw [utf8DecodeLossy_encode, drainLines_eq]
      rw [ih rest (k + 1) (splitCL (buf ++ t)).2
        (splitCL_rem_no_newline (buf ++ t))
        (fun i hi => by
          have := hbefore (i + 1) (by omega)
          simpa [Nat.add_assoc, Nat.add_comm 1 i] using this)
        (by
          have : k + 1 + j = k + (j + 1) := by omega
          rw [this]
          exact hat)
        (by simpa using hlen)]
      have happ := splitAux_append (buf ++ t) (concatAll (rest.take j)) [] (by simp)
      rw [show (t :: rest).take (j + 1) = t :: rest.take j from rfl,
        show concatAll (t :: rest.take j) = t ++ concatAll (rest.take j) from rfl,
        ← List.append_assoc]
      dsimp only
      simp only [lineEventsOf, splitCL]
      rw [happ]
      simp [List.filterMap_append]

theorem streamLoop_err_after (p : List Char → Bool) (pid : String)
    (flag : Nat → Bool) (e : String) :
    ∀ (chunks : List (Except String (List Nat)))
      (rest : List (Except String (List Nat))) (i : Nat) (buf : List Char),
      (∀ x ∈ chunks, ∃ bs, x = Except.ok bs) → (∀ j, flag j = false) →
      (streamLoop p pid flag (chunks ++ Except.error e :: rest) i buf).1 =
        Except.error e := by
  intro chunks
  induction chunks with
  | nil =>
    intro rest i buf hok hf
    rw [List.nil_append, streamLoop_err p pid flag e rest i buf (hf i)]
  | cons x t ih =>
    intro rest i buf hok hf
    obtain ⟨bs, rfl⟩ := hok x (by simp)
    rw [List.cons_append, streamLoop_ok_cons p pid flag bs _ i buf (hf i)]
    exact ih rest (i + 1) _ (fun y hy => hok y (by simp [hy])) hf

theorem model_pull_clientFail (p : List Char → Bool) (name pid e : String)
    (sr : Except String (Nat × List (Except String (List Nat))))
    (flag : Nat → Bool) (reg0 : Registry) :
    model_pull p name pid (Except.error e) sr flag reg0 =
      ⟨Except.error e, [], regRegister pid reg0⟩ := rfl

theorem model_pull_sendFail (p : List Char → Bool) (name pid e : String)
    (flag : Nat → Bool) (reg0 : Registry) :
    model_pull p name pid (Except.ok ()) (Except.error e) flag reg0 =
      ⟨Except.error e, [Event.pullStart pid name], regRegister pid reg0⟩ := rfl

theorem model_pull_badStatus (p : List Char → Bool) (name pid : String)
    (s : Nat) (chunks : List (Except String (List Nat)))
    (flag : Nat → Bool) (reg0 : Registry) (h : statusIsSuccess s = false) :
    model_pull p name pid (Except.ok ()) (Except.ok (s, chunks)) flag reg0 =
      ⟨Except.ok ⟨false, some (httpErrorMsg s)⟩,
        [Event.pullStart pid name, Event.pullError pid (httpErrorMsg s)],
        regRegister pid reg0⟩ := by
  simp only [model_pull]
  rw [if_neg (by simp [h])]
  rfl

theorem model_pull_loopErr (p : List Char → Bool) (name pid : String)
    (s : Nat) (chunks : List (Except String (List Nat)))
    (flag : Nat → Bool) (reg0 : Registry) (e : String)
    (hs : statusIsSuccess s = true)
    (hres : (streamLoop p pid flag chunks 0 []).1 = Except.error e) :
    model_pull p name pid (Except.ok ()) (Except.ok (s, chunks)) flag reg0 =
      ⟨Except.ok ⟨false, some e⟩,
        Event.pullStart pid name :: (streamLoop p pid flag chunks 0 []).2.1 ++
          [if e = "Cancelled by user" then Event.pullCancelled pid
           else Event.pullError pid e],
        regErase pid (regRegister pid reg0)⟩ := by
  simp only [model_pull]
  rw [if_pos (by simp [hs])]
  rw [hres]
  dsimp only
  by_cases hc : e = "Cancelled by user"
  · simp [hc]
  · simp [hc]

theorem model_pull_loopOk (p : List Char → Bool) (name pid : String)
    (s : Nat) (chunks : List (Except String (List Nat)))
    (flag : Nat → Bool) (reg0 : Registry)
    (hs : statusIsSuccess s = true)
    (hres : (streamLoop p pid flag chunks 0 []).1 = Except.ok ()) :
    model_pull p name pid (Except.ok ()) (Except.ok (s, chunks)) flag reg0 =
      ⟨Except.ok ⟨true, none⟩,
        Event.pullStart pid name :: (streamLoop p pid flag chunks 0 []).2.1 ++
          (if rustTrim (streamLoop p pid flag chunks 0 []).2.2 = [] then []
           else if p (rustTrim (streamLoop p pid flag chunks 0 []).2.2) then
             [Event.pullProgress pid
               (ProgressPayload.value
                 (rustTrim (streamLoop p pid flag chunks 0 []).2.2))]
           else []) ++ [Event.pullComplete pid],
        regErase pid (regRegister pid reg0)⟩ := by
  simp only [model_pull]
  rw [if_pos (by simp [hs])]
  rw [hres]
  simp

/-! ## Lemmas: event classification -/

theorem isProgressEvent_progressEvent (p : List Char → Bool) (pid : String)
    (l : List Char) : isProgressEvent (progressEvent p pid l) = true := by
  by_cases h : p l <;> simp [progressEvent, h, isProgressEvent]

theorem mem_lineEventsOf_progress (p : List Char → Bool) (pid : String)
    (text : List Char) (ev : Event)
    (h : ev ∈ lineEventsOf p pid text) : isProgressEvent ev = true := by
  rw [lineEventsOf] at h
  obtain ⟨l, _, hl⟩ := List.mem_filterMap.mp h
  rw [lineEvent] at hl
  by_cases he : rustTrim l = []
  · simp [he] at hl
  · simp only [if_neg he, Option.some.injEq] at hl
    rw [← hl]
    exact isProgressEvent_progressEvent p pid (rustTrim l)

theorem lineEventsOf_filter_progress (p : List Char → Bool) (pid : String)
    (text : List Char) :
    (lineEventsOf p pid text).filter isProgressEvent = lineEventsOf p pid text :=
  List.filter_eq_self.mpr (fun ev hev => mem_lineEventsOf_progress p pid text ev hev)

theorem lineEventsOf_filter_cancelled (p : List Char → Bool) (pid : String)
    (text : List Char) :
    (lineEventsOf p pid text).filter isCancelledEvent = [] := by
  rw [List.filter_eq_nil_iff]
  intro ev hev
  have h := mem_lineEventsOf_progress p pid text ev hev
  cases ev <;> simp_all [isProgressEvent, isCancelledEvent]

theorem lineEventsOf_eq_segments (p : List Char → Bool) (pid : String)
    (text : List Char) :
    lineEventsOf p pid text =
      (((splitCL text).1.map rustTrim).filter (fun l => !l.isEmpty)).map
        (progressEvent p pid) := by
  rw [lineEventsOf]
  induction (splitCL text).1 with
  | nil => rfl
  | cons l ls ih =>
    by_cases h : rustTrim l = []
    · simp [lineEvent, h, ih]
    · simp [lineEvent, h, ih, List.isEmpty_iff]

/-! ## Claim theorems -/

/-- Claim C1, evaluated at the failing input: an invocation that registers
pull id p and is answered with HTTP 500 reaches the terminal Failed state
(it returns failure and has emitted the pull-error notification), yet the
identifier is still present in the registry when `model_pull` returns,
because the early `return` skips the cleanup that only runs after the
streaming loop.  The claimed invariant that the identifier is absent in
every terminal state is therefore violated by the code. -/
theorem C1_registry_leak :
    (model_pull (fun _ => false) "m" "p" (Except.ok ())
        (Except.ok (500, [])) (fun _ => false) []).result =
      Except.ok ⟨false, some "HTTP error: 500"⟩ ∧
    (model_pull (fun _ => false) "m" "p" (Except.ok ())
        (Except.ok (500, [])) (fun _ => false) []).events =
      [Event.pullStart "p" "m", Event.pullError "p" "HTTP error: 500"] ∧
    regLookup "p" (model_pull (fun _ => false) "m" "p" (Except.ok ())
        (Except.ok (500, [])) (fun _ => false) []).registry = some false := by
  refine ⟨?_, ?_, ?_⟩ <;> decide

/-- Claim C2 is false on the code: when the initial request cannot be
sent, `model_pull` publishes no pull-error notification (only pull-start
was emitted) and does not unregister the identifier; the failure is
propagated as the `Err` variant by the `?` operator. -/
theorem C2_counterexample :
    (model_pull (fun _ => false) "m" "p" (Except.ok ())
        (Except.error "connection refused") (fun _ => false) []).events.filter
      isErrorEvent = [] ∧
    regLookup "p" (model_pull (fun _ => false) "m" "p" (Except.ok ())
        (Except.error "connection refused") (fun _ => false) []).registry =
      some false ∧
    (model_pull (fun _ => false) "m" "p" (Except.ok ())
        (Except.error "connection refused") (fun _ => false) []).result =
      Except.error "connection refused" := by
  refine ⟨?_, ?_, ?_⟩ <;> decide

/-- Claim C2 as amended: when the initial streaming request cannot be
sent, `model_pull` propagates the failure detail as the `Err` variant of
its result with no bytes streamed — the only notification published is
`pull-start`, no `pull-error` is emitted, and the identifier remains
registered (with its fresh false flag) rather than being unregistered. -/
theorem C2_amended (p : List Char → Bool) (name pid e : String)
    (flag : Nat → Bool) (reg0 : Registry) :
    model_pull p name pid (Except.ok ()) (Except.error e) flag reg0 =
      ⟨Except.error e, [Event.pullStart pid name], regRegister pid reg0⟩ ∧
    regLookup pid
      (model_pull p name pid (Except.ok ()) (Except.error e) flag reg0).registry =
      some false := by
  refine ⟨model_pull_sendFail p name pid e flag reg0, ?_⟩
  rw [model_pull_sendFail p name pid e flag reg0]
  exact regLookup_regInsert_self pid false reg0

/-- Claim C5 is false on the code: registering an identifier that is
already present does not fail — `HashMap::insert` silently replaces the
existing entry (here an already-cancelled flag `true` is discarded and
replaced by the fresh `false` flag). -/
theorem C5_counterexample :
    regLookup "a" [("a", true)] = some true ∧
    regRegister "a" [("a", true)] = [("a", false)] ∧
    regLookup "a" (regRegister "a" [("a", true)]) = some false := by
  refine ⟨?_, ?_, ?_⟩ <;> decide

/-- Claim C5 as amended: registration never fails; it always installs a
fresh false token under the identifier, silently replacing any entry
already present, and leaves every other identifier's entry unchanged. -/
theorem C5_amended (k : String) (m : Registry) :
    regLookup k (regRegister k m) = some false ∧
    ∀ q, q ≠ k → regLookup q (regRegister k m) = regLookup q m :=
  ⟨regLookup_regInsert_self k false m,
    fun q hq => regLookup_regInsert_ne q k false m hq⟩

/-- Witness for the amended claim C5 at a concrete registry. -/
theorem C5_amended_witness :
    regLookup "a" (regRegister "a" [("a", true), ("b", true)]) = some false ∧
    regLookup "b" (regRegister "a" [("a", true), ("b", true)]) = some true := by
  refine ⟨(C5_amended "a" [("a", true), ("b", true)]).1, ?_⟩
  rw [(C5_amended "a" [("a", true), ("b", true)]).2 "b" (by decide)]
  decide

/-- Claim C7: when the server answers the initial request with a
non-success status, `model_pull` returns success false with an error
message carrying the status code, publishes exactly one pull-error
notification, and publishes no pull-progress notifications. -/
theorem C7_http_error (p : List Char → Bool) (name pid : String) (s : Nat)
    (chunks : List (Except String (List Nat))) (flag : Nat → Bool)
    (reg0 : Registry) (h : statusIsSuccess s = false) :
    (model_pull p name pid (Except.ok ()) (Except.ok (s, chunks)) flag
        reg0).result = Except.ok ⟨false, some (httpErrorMsg s)⟩ ∧
    (model_pull p name pid (Except.ok ()) (Except.ok (s, chunks)) flag
        reg0).events =
      [Event.pullStart pid name, Event.pullError pid (httpErrorMsg s)] ∧
    ((model_pull p name pid (Except.ok ()) (Except.ok (s, chunks)) flag
        reg0).events.filter isErrorEvent).length = 1 ∧
    (model_pull p name pid (Except.ok ()) (Except.ok (s, chunks)) flag
        reg0).events.filter isProgressEvent = [] := by
  rw [model_pull_badStatus p name pid s chunks flag reg0 h]
  refine ⟨rfl, rfl, ?_, ?_⟩ <;> simp [isErrorEvent, isProgressEvent]

/-- Witness for claim C7 at HTTP status 500. -/
theorem C7_http_error_witness :
    (model_pull (fun _ => true) "m" "p" (Except.ok ()) (Except.ok (500, []))
        (fun _ => false) []).result =
      Except.ok ⟨false, some (httpErrorMsg 500)⟩ ∧
    (model_pull (fun _ => true) "m" "p" (Except.ok ()) (Except.ok (500, []))
        (fun _ => false) []).events =
      [Event.pullStart "p" "m", Event.pullError "p" (httpErrorMsg 500)] ∧
    ((model_pull (fun _ => true) "m" "p" (Except.ok ()) (Except.ok (500, []))
        (fun _ => false) []).events.filter isErrorEvent).length = 1 ∧
    (model_pull (fun _ => true) "m" "p" (Except.ok ()) (Except.ok (500, []))
        (fun _ => false) []).events.filter isProgressEvent = [] :=
  C7_http_error (fun _ => true) "m" "p" 500 [] (fun _ => false) [] (by decide)

/-- Claim C8: cancelling an identifier with no active registry entry
returns the not-found outcome, leaving the registry untouched; cancelling
an identifier with an active entry sets its token to true and returns
success.  (The embedding is a total function, so no crash is possible.) -/
theorem C8_cancel_outcomes (pid : String) (reg : Registry) :
    (regLookup pid reg = none →
      model_pull_cancel pid reg = (⟨false, some "Pull ID not found"⟩, reg)) ∧
    (∀ b, regLookup pid reg = some b →
      (model_pull_cancel pid reg).1 = ⟨true, none⟩ ∧
      regLookup pid (model_pull_cancel pid reg).2 = some true) := by
  constructor
  · intro h
    simp [model_pull_cancel, h]
  · intro b h
    have h2 : model_pull_cancel pid reg = (⟨true, none⟩, regSet pid true reg) := by
      simp [model_pull_cancel, h]
    rw [h2]
    exact ⟨rfl, regLookup_regSet_self pid true b reg h⟩

/-- Witness for claim C8: the not-found branch on an empty registry and
the success branch on a registry holding the identifier. -/
theorem C8_cancel_outcomes_witness :
    model_pull_cancel "q" [] = (⟨false, some "Pull ID not found"⟩, []) ∧
    (model_pull_cancel "p" [("p", false)]).1 = ⟨true, none⟩ ∧
    regLookup "p" (model_pull_cancel "p" [("p", false)]).2 = some true :=
  ⟨(C8_cancel_outcomes "q" []).1 rfl,
    (C8_cancel_outcomes "p" [("p", false)]).2 false rfl⟩

/-- Claim C9: the two failure channels of `model_pull`.  Failures before
streaming begins — HTTP client construction failure and failure to send
the initial request — are returned as the `Err` variant of the `Result`,
bypassing the `SimpleResponse` shape; a non-success initial HTTP status
and every failure arising once the streaming loop has begun (transport
error during streaming as well as user cancellation, i.e. any loop exit
with an error) are returned as `Ok` of a `SimpleResponse` with success
false and the error message. -/
theorem C9_failure_channels (p : List Char → Bool) (name pid : String)
    (flag : Nat → Bool) (reg0 : Registry) :
    (∀ e sr, (model_pull p name pid (Except.error e) sr flag reg0).result =
      Except.error e) ∧
    (∀ e, (model_pull p name pid (Except.ok ()) (Except.error e) flag
      reg0).result = Except.error e) ∧
    (∀ s chunks, statusIsSuccess s = false →
      (model_pull p name pid (Except.ok ()) (Except.ok (s, chunks)) flag
        reg0).result = Except.ok ⟨false, some (httpErrorMsg s)⟩) ∧
    (∀ s chunks e, statusIsSuccess s = true →
      (streamLoop p pid flag chunks 0 []).1 = Except.error e →
      (model_pull p name pid (Except.ok ()) (Except.ok (s, chunks)) flag
        reg0).result = Except.ok ⟨false, some e⟩) ∧
    (∀ s e rest, statusIsSuccess s = true → (∀ j, flag j = false) →
      (model_pull p name pid (Except.ok ())
        (Except.ok (s, Except.error e :: rest)) flag reg0).result =
        Except.ok ⟨false, some e⟩) := by
  refine ⟨?_, ?_, ?_, ?_, ?_⟩
  · intro e sr
    rw [model_pull_clientFail p name pid e sr flag reg0]
  · intro e
    rw [model_pull_sendFail p name pid e flag reg0]
  · intro s chunks h
    rw [model_pull_badStatus p name pid s chunks flag reg0 h]
  · intro s chunks e hs hres
    rw [model_pull_loopErr p name pid s chunks flag reg0 e hs hres]
  · intro s e rest hs hf
    have hres : (streamLoop p pid flag (Except.error e :: rest) 0 []).1 =
        Except.error e := by
      rw [streamLoop_err p pid flag e rest 0 [] (hf 0)]
    rw [model_pull_loopErr p name pid s _ flag reg0 e hs hres]

/-- Witness for claim C9: each channel at a concrete input — client
build failure, send failure, HTTP 500, a transport error reported by the
loop, and a transport error on the first chunk. -/
theorem C9_failure_channels_witness :
    (model_pull (fun _ => true) "m" "p" (Except.error "tls init failed")
        (Except.ok (200, [])) (fun _ => false) []).result =
      Except.error "tls init failed" ∧
    (model_pull (fun _ => true) "m" "p" (Except.ok ())
        (Except.error "connection refused") (fun _ => false) []).result =
      Except.error "connection refused" ∧
    (model_pull (fun _ => true) "m" "p" (Except.ok ()) (Except.ok (500, []))
        (fun _ => false) []).result = Except.ok ⟨false, some (httpErrorMsg 500)⟩ ∧
    (model_pull (fun _ => true) "m" "p" (Except.ok ())
        (Except.ok (200, [Except.error "connection reset"])) (fun _ => false)
        []).result = Except.ok ⟨false, some "connection reset"⟩ ∧
    (model_pull (fun _ => true) "m" "p" (Except.ok ())
        (Except.ok (200, [Except.error "io error"])) (fun _ => false)
        []).result = Except.ok ⟨false, some "io error"⟩ := by
  obtain ⟨h1, h2, h3, h4, h5⟩ :=
    C9_failure_channels (fun _ => true) "m" "p" (fun _ => false) []
  exact ⟨h1 "tls init failed" (Except.ok (200, [])), h2 "connection refused",
    h3 500 [] (by decide),
    h4 200 [Except.error "connection reset"] "connection reset" (by decide)
      (by decide),
    h5 200 "io error" [] (by decide) (fun _ => rfl)⟩

/-- Claim C10: `model_pull_cancel` on an active identifier is idempotent
and never removes registry entries — it returns success, leaves the entry
present with its flag true, a repeated call returns success again without
changing the registry, and every other identifier's entry is untouched
(only the owning `model_pull` loop's cleanup removes entries). -/
theorem C10_cancel_idempotent (pid : String) (reg : Registry) (b : Bool)
    (h : regLookup pid reg = some b) :
    (model_pull_cancel pid reg).1 = ⟨true, none⟩ ∧
    regLookup pid (model_pull_cancel pid reg).2 = some true ∧
    model_pull_cancel pid (model_pull_cancel pid reg).2 =
      (⟨true, none⟩, (model_pull_cancel pid reg).2) ∧
    (∀ q, q ≠ pid → regLookup q (model_pull_cancel pid reg).2 =
      regLookup q reg) := by
  have h1 : model_pull_cancel pid reg = (⟨true, none⟩, regSet pid true reg) := by
    simp [model_pull_cancel, h]
  have hl : regLookup pid (regSet pid true reg) = some true :=
    regLookup_regSet_self pid true b reg h
  rw [h1]
  refine ⟨rfl, hl, ?_, ?_⟩
  · simp [model_pull_cancel, hl, regSet_regSet]
  · intro q hq
    exact regLookup_regSet_ne q pid true reg hq

/-- Witness for claim C10 at a concrete registry holding the identifier. -/
theorem C10_cancel_idempotent_witness :
    (model_pull_cancel "p" [("p", false), ("q", false)]).1 = ⟨true, none⟩ ∧
    regLookup "p" (model_pull_cancel "p" [("p", false), ("q", false)]).2 =
      some true ∧
    model_pull_cancel "p" (model_pull_cancel "p" [("p", false), ("q", false)]).2 =
      (⟨true, none⟩, (model_pull_cancel "p" [("p", false), ("q", false)]).2) ∧
    regLookup "q" (model_pull_cancel "p" [("p", false), ("q", false)]).2 =
      regLookup "q" [("p", false), ("q", false)] := by
  obtain ⟨h1, h2, h3, h4⟩ :=
    C10_cancel_idempotent "p" [("p", false), ("q", false)] false rfl
  exact ⟨h1, h2, h3, h4 "q" (by decide)⟩

/-- Claim C3 is false on the code for the final unterminated remainder:
the stream delivers the single byte x with no trailing newline, the
remainder trims to the non-empty line x which fails to parse (the oracle
answers false, as `serde_json` does on this text), yet no pull-progress
notification of any kind is published — the trailing-buffer flush only
emits a notification when the line parses, silently dropping it
otherwise. -/
theorem C3_counterexample :
    rustTrim [Char.ofNat 0x78] ≠ [] ∧
    (model_pull (fun _ => false) "m" "p" (Except.ok ())
        (Except.ok (200, [Except.ok [0x78]])) (fun _ => false) []).events =
      [Event.pullStart "p" "m", Event.pullComplete "p"] := by
  refine ⟨?_, ?_⟩ <;> decide

/-- Claim C3 as amended: every line extracted by the streaming loop
(newline terminated) whose trim is non-empty and which fails to parse is
published wrapped in a parsing-error payload — no such line is silently
dropped; the final unterminated remainder, however, is published only
when it parses as JSON: when it does not, the progress notifications are
exactly those of the newline-terminated lines and the remainder is
silently dropped. -/
theorem C3_parse_errors_forwarded (p : List Char → Bool) (name pid : String)
    (texts : List (List Char)) (flag : Nat → Bool) (s : Nat) (reg0 : Registry)
    (hs : statusIsSuccess s = true) (hf : ∀ j, flag j = false) :
    (∀ l ∈ (splitCL (concatAll texts)).1, rustTrim l ≠ [] →
      p (rustTrim l) = false →
      Event.pullProgress pid (ProgressPayload.parsingError (rustTrim l)) ∈
        (model_pull p name pid (Except.ok ())
          (Except.ok (s, texts.map (fun t => Except.ok (utf8Encode t)))) flag
          reg0).events) ∧
    (p (rustTrim (splitCL (concatAll texts)).2) = false →
      (model_pull p name pid (Except.ok ())
          (Except.ok (s, texts.map (fun t => Except.ok (utf8Encode t)))) flag
          reg0).events.filter isProgressEvent =
        lineEventsOf p pid (concatAll texts)) := by
  have hloop := streamLoop_all_ok p pid flag texts 0 [] hf (by simp)
  simp only [List.nil_append] at hloop
  have hres : (streamLoop p pid flag
      (texts.map (fun t => Except.ok (utf8Encode t))) 0 []).1 =
      Except.ok () := by rw [hloop]
  have hev := model_pull_loopOk p name pid s _ flag reg0 hs hres
  rw [hloop] at hev
  dsimp only at hev
  constructor
  · intro l hl htrim hp
    rw [hev]
    have hmem : Event.pullProgress pid (ProgressPayload.parsingError (rustTrim l)) ∈
        lineEventsOf p pid (concatAll texts) := by
      refine List.mem_filterMap.mpr ⟨l, hl, ?_⟩
      simp [lineEvent, htrim, progressEvent, hp]
    simp [hmem]
  · intro hp
    rw [hev]
    dsimp only
    by_cases hrem : rustTrim (splitCL (concatAll texts)).2 = []
    · simp [hrem, List.filter_append, isProgressEvent,
        lineEventsOf_filter_progress]
    · simp [hrem, hp, List.filter_append, isProgressEvent,
        lineEventsOf_filter_progress]

/-- Claim C4 is false on the code on two independent inputs.  First, a
mid-character chunk split changes the record count: the bytes of the text
consisting of an EM-SPACE segment (trimmed to empty, so not counted) and
the segment a, split inside the three-byte EM-SPACE character, decode
chunk-locally into replacement characters that form an extra non-empty
segment, so two records are emitted although the concatenation holds one
counted segment.  Second, an unterminated final segment that fails to
parse is dropped by the flush, so zero records are emitted although the
concatenation holds one. -/
theorem C4_counterexample :
    ((((splitCL (utf8DecodeLossy [0xE2, 0x80, 0x83, 0x0A, 0x61, 0x0A])).1 ++
        [(splitCL (utf8DecodeLossy [0xE2, 0x80, 0x83, 0x0A, 0x61, 0x0A])).2]).map
          rustTrim).filter (fun l => !l.isEmpty)).length = 1 ∧
    ((model_pull (fun _ => false) "m" "p" (Except.ok ())
        (Except.ok (200, [Except.ok [0xE2], Except.ok [0x80, 0x83, 0x0A],
          Except.ok [0x61, 0x0A]])) (fun _ => false) []).events.filter
      isProgressEvent).length = 2 ∧
    ((((splitCL (utf8DecodeLossy [0x78])).1 ++
        [(splitCL (utf8DecodeLossy [0x78])).2]).map
          rustTrim).filter (fun l => !l.isEmpty)).length = 1 ∧
    ((model_pull (fun _ => false) "m" "p" (Except.ok ())
        (Except.ok (200, [Except.ok [0x78]])) (fun _ => false) []).events.filter
      isProgressEvent).length = 0 := by
  refine ⟨?_, ?_, ?_, ?_⟩ <;> decide

/-- Claim C4 as amended: for every chunk sequence in which no chunk
boundary splits a multi-byte character (each chunk is the UTF-8 encoding
of a text), the streaming loop plus the final flush emits pull-progress
records exactly for the non-empty trimmed newline-terminated segments of
the concatenated text, in their original order and regardless of how the
text is split across chunks, plus one final record for the unterminated
remainder if and only if that remainder is non-empty after trimming and
parses as JSON. -/
theorem C4_framing (p : List Char → Bool) (name pid : String)
    (texts : List (List Char)) (flag : Nat → Bool) (s : Nat) (reg0 : Registry)
    (hs : statusIsSuccess s = true) (hf : ∀ j, flag j = false) :
    (model_pull p name pid (Except.ok ())
        (Except.ok (s, texts.map (fun t => Except.ok (utf8Encode t)))) flag
        reg0).events.filter isProgressEvent =
      (segmentsOf (concatAll texts)).map (progressEvent p pid) ++
        (if rustTrim (splitCL (concatAll texts)).2 = [] then []
         else if p (rustTrim (splitCL (concatAll texts)).2) then
           [Event.pullProgress pid
             (ProgressPayload.value (rustTrim (splitCL (concatAll texts)).2))]
         else []) := by
  have hloop := streamLoop_all_ok p pid flag texts 0 [] hf (by simp)
  simp only [List.nil_append] at hloop
  have hres : (streamLoop p pid flag
      (texts.map (fun t => Except.ok (utf8Encode t))) 0 []).1 =
      Except.ok () := by rw [hloop]
  have hev := model_pull_loopOk p name pid s _ flag reg0 hs hres
  rw [hloop] at hev
  dsimp only at hev
  rw [hev]
  dsimp only
  simp only [segmentsOf]
  rw [← lineEventsOf_eq_segments]
  by_cases hrem : rustTrim (splitCL (concatAll texts)).2 = []
  · simp [hrem, List.filter_append, isProgressEvent,
      lineEventsOf_filter_progress]
  · by_cases hp : p (rustTrim (splitCL (concatAll texts)).2)
    · simp [hrem, hp, List.filter_append, isProgressEvent,
        lineEventsOf_filter_progress]
    · simp [hrem, hp, List.filter_append, isProgressEvent,
        lineEventsOf_filter_progress]

/-- Witness for the amended claim C4: two chunks that split the text
mid-line (chunk a, then chunk newline-b), with a parse oracle that
accepts everything, yield one record for the terminated segment a and one
flush record for the remainder b. -/
theorem C4_framing_witness :
    (model_pull (fun _ => true) "m" "p" (Except.ok ())
        (Except.ok (200,
          [['a'], ['\n', 'b']].map (fun t => Except.ok (utf8Encode t))))
        (fun _ => false) []).events.filter isProgressEvent =
      (segmentsOf (concatAll [['a'], ['\n', 'b']])).map
        (progressEvent (fun _ => true) "p") ++
        (if rustTrim (splitCL (concatAll [['a'], ['\n', 'b']])).2 = [] then []
         else if (fun _ => true : List Char → Bool)
             (rustTrim (splitCL (concatAll [['a'], ['\n', 'b']])).2) then
           [Event.pullProgress "p" (ProgressPayload.value
             (rustTrim (splitCL (concatAll [['a'], ['\n', 'b']])).2))]
         else []) :=
  C4_framing (fun _ => true) "m" "p" [['a'], ['\n', 'b']] (fun _ => false)
    200 [] (by decide) (fun _ => rfl)

/-- Witness for the amended claim C3: the stream delivers x newline; the
line x fails to parse and is forwarded wrapped, and with the empty
unparseable remainder the progress notifications are exactly the drained
line events. -/
theorem C3_parse_errors_forwarded_witness :
    Event.pullProgress "p" (ProgressPayload.parsingError ['x']) ∈
      (model_pull (fun _ => false) "m" "p" (Except.ok ())
        (Except.ok (200, [['x', '\n']].map (fun t => Except.ok (utf8Encode t))))
        (fun _ => false) []).events ∧
    (model_pull (fun _ => false) "m" "p" (Except.ok ())
        (Except.ok (200, [['x', '\n']].map (fun t => Except.ok (utf8Encode t))))
        (fun _ => false) []).events.filter isProgressEvent =
      lineEventsOf (fun _ => false) "p" (concatAll [['x', '\n']]) := by
  obtain ⟨ha, hb⟩ := C3_parse_errors_forwarded (fun _ => false) "m" "p"
    [['x', '\n']] (fun _ => false) 200 [] (by decide) (fun _ => rfl)
  exact ⟨ha ['x'] (by decide) (by decide) rfl, hb rfl⟩

/-- Claim C6: if the cancellation flag (set by a successful
`model_pull_cancel`) is first observed true at the loop's j-th check,
the pull transitions to Cancelled at that chunk boundary: the result is
the failure response whose error text is "Cancelled by user", the event
trace is pull-start, the progress records of exactly the first j chunks,
and a single pull-cancelled notification — nothing from the unread
chunks — and the registry entry is gone after the loop exits. -/
theorem C6_cancelled_at_boundary (p : List Char → Bool) (name pid : String)
    (texts : List (List Char)) (flag : Nat → Bool) (reg0 : Registry) (j : Nat)
    (hj : j ≤ texts.length) (hbefore : ∀ i, i < j → flag i = false)
    (hat : flag j = true) :
    (model_pull p name pid (Except.ok ())
        (Except.ok (200, texts.map (fun t => Except.ok (utf8Encode t)))) flag
        reg0).result = Except.ok ⟨false, some "Cancelled by user"⟩ ∧
    (model_pull p name pid (Except.ok ())
        (Except.ok (200, texts.map (fun t => Except.ok (utf8Encode t)))) flag
        reg0).events =
      Event.pullStart pid name ::
        lineEventsOf p pid (concatAll (texts.take j)) ++
          [Event.pullCancelled pid] ∧
    ((model_pull p name pid (Except.ok ())
        (Except.ok (200, texts.map (fun t => Except.ok (utf8Encode t)))) flag
        reg0).events.filter isCancelledEvent).length = 1 ∧
    regLookup pid (model_pull p name pid (Except.ok ())
        (Except.ok (200, texts.map (fun t => Except.ok (utf8Encode t)))) flag
        reg0).registry = none := by
  have hloop := streamLoop_cancel_at p pid flag j texts 0 []
    (by simp) (fun i hi => by simpa using hbefore i hi) (by simpa using hat) hj
  simp only [List.nil_append] at hloop
  have hres : (streamLoop p pid flag
      (texts.map (fun t => Except.ok (utf8Encode t))) 0 []).1 =
      Except.error "Cancelled by user" := by rw [hloop]
  have hev := model_pull_loopErr p name pid 200 _ flag reg0 "Cancelled by user"
    (by decide) hres
  rw [hloop] at hev
  rw [if_pos rfl] at hev
  dsimp only at hev
  rw [hev]
  refine ⟨rfl, rfl, ?_, ?_⟩
  · dsimp only
    simp [List.filter_append, isCancelledEvent, lineEventsOf_filter_cancelled]
  · dsimp only
    exact regLookup_regErase_self pid (regRegister pid reg0)

/-- Witness for claim C6, the specification's scenario: three chunks,
with the cancellation flag first observed true after the first chunk has
been processed — one progress record from chunk one, exactly one
pull-cancelled notification, the user-cancellation error text, and no
registry entry afterwards. -/
theorem C6_cancelled_at_boundary_witness :
    (model_pull (fun _ => true) "m" "p" (Except.ok ())
        (Except.ok (200, [['a', '\n'], ['b', '\n'], ['c', '\n']].map
          (fun t => Except.ok (utf8Encode t)))) (fun i => decide (1 ≤ i))
        []).result = Except.ok ⟨false, some "Cancelled by user"⟩ ∧
    (model_pull (fun _ => true) "m" "p" (Except.ok ())
        (Except.ok (200, [['a', '\n'], ['b', '\n'], ['c', '\n']].map
          (fun t => Except.ok (utf8Encode t)))) (fun i => decide (1 ≤ i))
        []).events =
      Event.pullStart "p" "m" ::
        lineEventsOf (fun _ => true) "p"
          (concatAll ([['a', '\n'], ['b', '\n'], ['c', '\n']].take 1)) ++
          [Event.pullCancelled "p"] ∧
    ((model_pull (fun _ => true) "m" "p" (Except.ok ())
        (Except.ok (200, [['a', '\n'], ['b', '\n'], ['c', '\n']].map
          (fun t => Except.ok (utf8Encode t)))) (fun i => decide (1 ≤ i))
        []).events.filter isCancelledEvent).length = 1 ∧
    regLookup "p" (model_pull (fun _ => true) "m" "p" (Except.ok ())
        (Except.ok (200, [['a', '\n'], ['b', '\n'], ['c', '\n']].map
          (fun t => Except.ok (utf8Encode t)))) (fun i => decide (1 ≤ i))
        []).registry = none :=
  C6_cancelled_at_boundary (fun _ => true) "m" "p"
    [['a', '\n'], ['b', '\n'], ['c', '\n']] (fun i => decide (1 ≤ i)) [] 1
    (by decide)
    (fun i hi => by
      cases i with
      | zero => rfl
      | succ n => exact absurd hi (by omega))
    rfl

end OlliePull
